import Mathlib

/-!
Verification of the canvas-mcp surface synchronization engine.

The definitions below are a shallow embedding of
`src/canvas_mcp/canvas_manager.py` and `src/canvas_mcp/models.py`:
Python dicts become association lists, in-place mutation becomes explicit
state passing, raised exceptions become `Option CErr` results, and the
side effects of an operation (websocket sends, channel closes, persistence
writes/deletes, store removals) become an explicit list of `Event`s emitted
in program order.
-/

namespace CanvasMcp

/-- Strings are modelled as lists of characters. -/
abbrev Str := List Char

/-- JSON-compatible values: the data stored in a surface's `data_model`
and the values carried by path mutations.  Objects are insertion-ordered
association lists, matching Python dict semantics. -/
inductive Json where
  | null
  | bool (b : Bool)
  | num (n : Int)
  | str (s : Str)
  | arr (elems : List Json)
  | obj (entries : List (Str × Json))

/-- Whether a value is a mapping (a Python dict). -/
def Json.isObj : Json → Bool
  | .obj _ => true
  | _ => false

/-- Error taxonomy of the manager operations.  `surfaceNotFound` models
`ValueError("Surface not found: ...")`, `invalidPath` models
`ValueError("Cannot replace root object")`, and `typeError` models the
unhandled Python `TypeError` raised when the pointer walk hits a
non-dict value. -/
inductive CErr where
  | surfaceNotFound
  | invalidPath
  | typeError
deriving DecidableEq

/-- Lookup in an insertion-ordered association list (Python `d.get(k)` /
`k in d`): the first entry with the given key. -/
def assocGet {α : Type} : List (Str × α) → Str → Option α
  | [], _ => none
  | (k', v) :: rest, k => if k' = k then some v else assocGet rest k

/-- Update in an insertion-ordered association list (Python `d[k] = v`):
replace the first entry with the given key in place, otherwise append at
the end, matching dict insertion order. -/
def assocSet {α : Type} : List (Str × α) → Str → α → List (Str × α)
  | [], k, v => [(k, v)]
  | (k', v') :: rest, k, v =>
      if k' = k then (k', v) :: rest else (k', v') :: assocSet rest k v

/-- Deletion from an association list (Python `del d[k]` /
`d.pop(k, default)`): remove the first entry with the given key. -/
def assocRemove {α : Type} : List (Str × α) → Str → List (Str × α)
  | [], _ => []
  | (k', v') :: rest, k =>
      if k' = k then rest else (k', v') :: assocRemove rest k

/-- Drop every leading slash character (the head end of Python
`path.strip("/")`). -/
def dropLeadingSlashes : Str → Str
  | [] => []
  | c :: cs => if c = '/' then dropLeadingSlashes cs else c :: cs

/-- Python `path.strip("/")`: remove ALL leading and trailing slash
characters. -/
def stripSlashes (s : Str) : Str :=
  (dropLeadingSlashes (dropLeadingSlashes s).reverse).reverse

/-- Python `s.split("/")`: split on every slash; the empty string yields
the singleton `[[]]`, and consecutive slashes yield empty segments, just
as in Python. -/
def splitSlash : Str → List Str
  | [] => [[]]
  | c :: cs =>
      if c = '/' then [] :: splitSlash cs
      else
        match splitSlash cs with
        | [] => [[c]]
        | seg :: segs => (c :: seg) :: segs

/-- Path decoding as performed by `_set_json_pointer`:
`path.strip("/").split("/")`. -/
def decodeSegs (path : Str) : List Str :=
  splitSlash (stripSlashes path)

/-- The pointer walk of `_set_json_pointer` after the root check: walk
all segments but the last, inserting an empty mapping at a missing key
before descending; assign at the final segment.  Returns the resulting
tree together with the error, if any; when the walk or the final
assignment hits a non-dict value the Python code raises `TypeError`,
modelled as `CErr.typeError` with the tree as mutated so far. -/
def setSegsP : Json → List Str → Json → Json × Option CErr
  | .obj entries, [last], v => (.obj (assocSet entries last v), none)
  | .obj entries, k :: k2 :: rest, v =>
      (match assocGet entries k with
      | some child =>
          let r := setSegsP child (k2 :: rest) v
          (.obj (assocSet entries k r.1), r.2)
      | none =>
          let r := setSegsP (.obj []) (k2 :: rest) v
          (.obj (assocSet entries k r.1), r.2))
  | j, [], _ => (j, some .typeError)
  | j, _ :: _, _ => (j, some .typeError)

/-- `_set_json_pointer(obj, path, value)`: reject the root path (`""` or
`"/"`, raising `ValueError("Cannot replace root object")`, modelled as
`CErr.invalidPath`), then decode the path and run the pointer walk. -/
def setJsonPointer (j : Json) (path : Str) (v : Json) : Json × Option CErr :=
  if path = [] ∨ path = ['/'] then (j, some .invalidPath)
  else setSegsP j (decodeSegs path) v

/-- Walk a decoded segment sequence through a tree, reading. -/
def getSegs : Json → List Str → Option Json
  | j, [] => some j
  | .obj entries, k :: rest =>
      (match assocGet entries k with
      | some child => getSegs child rest
      | none => none)
  | _, _ :: _ => none

/-- Modelled from the spec: the `get`-equivalent lookup used to state the
set/get round-trip property; the repository has no read-side pointer
function, so the lookup decodes the path exactly as `_set_json_pointer`
does and walks the same segments. -/
def getJsonPointer (j : Json) (path : Str) : Option Json :=
  getSegs j (decodeSegs path)

mutual
/-- One value visited by `_flatten_data_model`: a dict is recursed into,
anything else is a leaf yielded with its reconstructed path. -/
def flattenJson (pre : Str) : Json → List (Str × Json)
  | .obj entries => flattenEntries pre entries
  | v => [(pre, v)]

/-- The iteration of `_flatten_data_model` over a dict's items, in
insertion order; each key extends the prefix with `"/" + key`. -/
def flattenEntries (pre : Str) : List (Str × Json) → List (Str × Json)
  | [] => []
  | (k, v) :: rest => flattenJson (pre ++ '/' :: k) v ++ flattenEntries pre rest
end

/-- `_flatten_data_model(obj)` on the surface's data-model dict, with the
empty initial prefix. -/
def flattenDataModel (entries : List (Str × Json)) : List (Str × Json) :=
  flattenEntries [] entries

/-- The slash path that `_flatten_data_model` reconstructs for a leaf
reached through the given key sequence, starting from the empty prefix. -/
def encodeSegs (parts : List Str) : Str :=
  parts.foldl (fun acc k => acc ++ '/' :: k) []

/-- A websocket client handle; the manager only compares handles for
identity, so an opaque numeric identifier suffices. -/
abbrev Client := Nat

/-- The persisted/authoritative state of one surface
(`models.SurfaceState`); timestamps are abstract ticks. -/
structure SurfaceStateM where
  surfaceId : Str
  name : Option Str
  deviceId : Option Str
  components : List Json
  dataModel : List (Str × Json)
  createdAt : Nat
  updatedAt : Nat

/-- The four A2UI server-to-client message shapes. -/
inductive Message where
  | createSurface (surfaceId : Str) (catalogId : Str)
  | updateComponents (components : List Json)
  | updateDataModel (path : Str) (value : Json)
  | deleteSurface (surfaceId : Str)

/-- Observable side effects of a manager operation, in program order. -/
inductive Event where
  | sent (c : Client) (m : Message)
  | closedChannel (c : Client)
  | persistedSurface (sid : Str)
  | removedFromStore (sid : Str)
  | deletedPersisted (sid : Str)

/-- The mutable state of `CanvasManager`: the authoritative surface map,
the per-surface websocket client registry, and the on-disk persistence
directory modelled as a keyed snapshot store. -/
structure ManagerState where
  persistenceEnabled : Bool
  surfaces : List (Str × SurfaceStateM)
  wsClients : List (Str × List Client)
  persisted : List (Str × SurfaceStateM)

/-- `_persist_surface`: no-op when persistence is disabled or the surface
is absent; otherwise write the current snapshot keyed by id. -/
def persistSurface (st : ManagerState) (sid : Str) : ManagerState × List Event :=
  if st.persistenceEnabled = false then (st, [])
  else
    match assocGet st.surfaces sid with
    | none => (st, [])
    | some s =>
        ({ st with persisted := assocSet st.persisted sid s }, [.persistedSurface sid])

/-- `_delete_persisted_surface`: no-op when persistence is disabled or no
record exists; otherwise unlink the record. -/
def deletePersistedSurface (st : ManagerState) (sid : Str) : ManagerState × List Event :=
  if st.persistenceEnabled = false then (st, [])
  else
    match assocGet st.persisted sid with
    | none => (st, [])
    | some _ =>
        ({ st with persisted := assocRemove st.persisted sid }, [.deletedPersisted sid])

/-- The send loop of `_broadcast_to_surface`: each client's `send_str` may
fail (`fails c = true`); a failure is caught, logged and the client
collected into the disconnected list, and the loop continues with the
remaining clients. -/
def sendAll (fails : Client → Bool) (msg : Message) : List Client → List Event × List Client
  | [] => ([], [])
  | c :: cs =>
      let r := sendAll fails msg cs
      if fails c then (r.1, c :: r.2) else (.sent c msg :: r.1, r.2)

/-- Discard each collected disconnected client from the registry set
(`set.discard`, modelled as first-occurrence erase). -/
def discardClients (cl : List Client) (disc : List Client) : List Client :=
  disc.foldl (fun acc c => acc.erase c) cl

/-- `_broadcast_to_surface`: look up the surface's client set (empty when
unknown), return immediately when it is empty, otherwise attempt a send
to every client and prune the ones whose send failed.  No failure is ever
propagated to the caller. -/
def broadcastToSurface (fails : Client → Bool) (st : ManagerState) (sid : Str)
    (msg : Message) : ManagerState × List Event :=
  let clients := (assocGet st.wsClients sid).getD []
  if clients = [] then (st, [])
  else
    let r := sendAll fails msg clients
    ({ st with wsClients := assocSet st.wsClients sid (discardClients clients r.2) }, r.1)

/-- `update_components`: fail when the surface is absent; otherwise
replace the component list wholesale, set `updated_at` to the current
tick, persist, and broadcast an `updateComponents` message. -/
def updateComponents (fails : Client → Bool) (st : ManagerState) (sid : Str)
    (components : List Json) (now : Nat) : ManagerState × List Event × Option CErr :=
  match assocGet st.surfaces sid with
  | none => (st, [], some .surfaceNotFound)
  | some s =>
      let s' := { s with components := components, updatedAt := now }
      let st1 := { st with surfaces := assocSet st.surfaces sid s' }
      let p := persistSurface st1 sid
      let b := broadcastToSurface fails p.1 sid (.updateComponents components)
      (b.1, p.2 ++ b.2, none)

/-- `update_data_model`: fail when the surface is absent; otherwise run
the pointer mutation on the surface's data model.  When the mutation
raises, the exception propagates before `updated_at`, persistence or
broadcast are reached, leaving only the in-place tree mutation (which the
pointer walk performed so far) in the state.  On success set
`updated_at`, persist, and broadcast an `updateDataModel` message. -/
def updateDataModel (fails : Client → Bool) (st : ManagerState) (sid : Str)
    (path : Str) (v : Json) (now : Nat) : ManagerState × List Event × Option CErr :=
  match assocGet st.surfaces sid with
  | none => (st, [], some .surfaceNotFound)
  | some s =>
      match setJsonPointer (.obj s.dataModel) path v with
      | (j', some e) =>
          let dm' := match j' with | .obj entries => entries | _ => s.dataModel
          ({ st with surfaces := assocSet st.surfaces sid { s with dataModel := dm' } },
            [], some e)
      | (.obj dm', none) =>
          let s' := { s with dataModel := dm', updatedAt := now }
          let st1 := { st with surfaces := assocSet st.surfaces sid s' }
          let p := persistSurface st1 sid
          let b := broadcastToSurface fails p.1 sid (.updateDataModel path v)
          (b.1, p.2 ++ b.2, none)
      | (_, none) => (st, [], some .typeError)

/-- `close_surface`: fail when the surface is absent; otherwise broadcast
`deleteSurface`, pop and force-close every registered client (close
failures are swallowed), delete the in-memory entry, then delete the
persisted record — in exactly that program order. -/
def closeSurface (fails : Client → Bool) (st : ManagerState) (sid : Str) :
    ManagerState × List Event × Option CErr :=
  match assocGet st.surfaces sid with
  | none => (st, [], some .surfaceNotFound)
  | some _ =>
      let b := broadcastToSurface fails st sid (.deleteSurface sid)
      let clients := (assocGet b.1.wsClients sid).getD []
      let st2 := { b.1 with wsClients := assocRemove b.1.wsClients sid }
      let st3 := { st2 with surfaces := assocRemove st2.surfaces sid }
      let d := deletePersistedSurface st3 sid
      (d.1, b.2 ++ clients.map Event.closedChannel ++ [.removedFromStore sid] ++ d.2, none)

/-- `get_surface`: the surface's full state, `none` when absent (the tool
layer surfaces that as `SurfaceNotFoundError`). -/
def getSurface (st : ManagerState) (sid : Str) : Option SurfaceStateM :=
  assocGet st.surfaces sid

/-- `send_initial_state` for a surface in the store: the full-state
replay written to one newly subscribed client — `createSurface` (with the
fixed catalog id `"standard"`), then the current components when the
list is non-empty, then one `updateDataModel` per flattened leaf when the
data model dict is non-empty. -/
def sendInitialState (s : SurfaceStateM) : List Message :=
  [Message.createSurface s.surfaceId "standard".data]
  ++ (match s.components with
      | [] => []
      | _ => [Message.updateComponents s.components])
  ++ (match s.dataModel with
      | [] => []
      | _ => (flattenDataModel s.dataModel).map fun pv => Message.updateDataModel pv.1 pv.2)

/-- The join-protocol replay shape as the spec words it: one
`createSurface`; then, iff the component list is non-empty, one
`updateComponents` with the full sequence; then one `updateDataModel` per
leaf of `flatten(dataModel)`, in flatten order. -/
def replaySpec (s : SurfaceStateM) : List Message :=
  Message.createSurface s.surfaceId "standard".data
    :: (match s.components with
        | [] => []
        | _ => [Message.updateComponents s.components])
    ++ (flattenDataModel s.dataModel).map fun pv => Message.updateDataModel pv.1 pv.2

/-! Association-list lemmas. -/

theorem assocGet_assocSet_self {α : Type} (l : List (Str × α)) (k : Str) (v : α) :
    assocGet (assocSet l k v) k = some v := by
  induction l with
  | nil => simp [assocGet, assocSet]
  | cons hd tl ih =>
      obtain ⟨k', v'⟩ := hd
      by_cases h : k' = k
      · simp [assocGet, assocSet, h]
      · simp [assocGet, assocSet, h, ih]

theorem assocSet_eq_of_get {α : Type} (l : List (Str × α)) (k : Str) (v : α)
    (h : assocGet l k = some v) : assocSet l k v = l := by
  induction l with
  | nil => simp [assocGet] at h
  | cons hd tl ih =>
      obtain ⟨k', v'⟩ := hd
      by_cases hk : k' = k
      · simp [assocGet, hk] at h
        simp [assocSet, hk, h]
      · simp [assocGet, hk] at h
        simp [assocSet, hk, ih h]

theorem assocGet_eq_none_of_not_mem {α : Type} (l : List (Str × α)) (k : Str)
    (h : k ∉ l.map Prod.fst) : assocGet l k = none := by
  induction l with
  | nil => rfl
  | cons hd tl ih =>
      obtain ⟨k', v'⟩ := hd
      simp only [List.map_cons, List.mem_cons] at h
      push_neg at h
      have hne : ¬k' = k := fun hc => h.1 hc.symm
      simp [assocGet, hne, ih h.2]

theorem assocGet_assocRemove_self {α : Type} (l : List (Str × α)) (k : Str)
    (hnd : (l.map Prod.fst).Nodup) : assocGet (assocRemove l k) k = none := by
  induction l with
  | nil => rfl
  | cons hd tl ih =>
      obtain ⟨k', v'⟩ := hd
      simp only [List.map_cons, List.nodup_cons] at hnd
      by_cases hk : k' = k
      · subst hk
        simpa [assocRemove] using assocGet_eq_none_of_not_mem tl k' hnd.1
      · simp [assocRemove, hk, assocGet, ih hnd.2]

/-! Path-codec lemmas. -/

theorem splitSlash_ne_nil (s : Str) : splitSlash s ≠ [] := by
  induction s with
  | nil => simp [splitSlash]
  | cons c cs ih =>
      simp only [splitSlash]
      by_cases h : c = '/'
      · simp [h]
      · simp only [h, if_false]
        cases hs : splitSlash cs with
        | nil => simp
        | cons seg segs => simp

/-! Send-loop and registry-pruning lemmas. -/

theorem sendAll_eq (fails : Client → Bool) (msg : Message) (cl : List Client) :
    sendAll fails msg cl =
      ((cl.filter fun c => !fails c).map fun c => Event.sent c msg,
        cl.filter fun c => fails c) := by
  induction cl with
  | nil => rfl
  | cons c cs ih =>
      by_cases h : fails c <;>
        simp [sendAll, ih, h, List.filter_cons]

theorem discardClients_cons_not_mem (c : Client) (l d : List Client) (h : c ∉ d) :
    discardClients (c :: l) d = c :: discardClients l d := by
  induction d generalizing l with
  | nil => rfl
  | cons x d ih =>
      have hxc : ¬((c == x) = true) := by
        simp only [beq_iff_eq]
        rintro rfl
        exact h (List.mem_cons_self _ _)
      have hmem : c ∉ d := fun hc => h (List.mem_cons_of_mem _ hc)
      simp only [discardClients, List.foldl_cons] at *
      rw [List.erase_cons_tail hxc]
      exact ih _ hmem

theorem discardClients_filter (p : Client → Bool) (l : List Client) (hnd : l.Nodup) :
    discardClients l (l.filter p) = l.filter fun c => !p c := by
  induction l with
  | nil => rfl
  | cons c cs ih =>
      rw [List.nodup_cons] at hnd
      by_cases h : p c
      · have : discardClients (c :: cs) (List.filter p (c :: cs)) =
            discardClients cs (List.filter p cs) := by
          simp only [List.filter_cons, h, if_true, discardClients, List.foldl_cons,
            List.erase_cons_head]
        rw [this, ih hnd.2, List.filter_cons]
        simp [h]
      · have hcnot : c ∉ List.filter p cs := fun hc => hnd.1 (List.mem_of_mem_filter hc)
        have h1 : List.filter p (c :: cs) = List.filter p cs := by
          simp [List.filter_cons, h]
        have h2 : List.filter (fun x => !p x) (c :: cs) =
            c :: List.filter (fun x => !p x) cs := by
          simp [List.filter_cons, h]
        rw [h1, discardClients_cons_not_mem c cs (List.filter p cs) hcnot, ih hnd.2, h2]

/-! State-component preservation lemmas for the manager operations. -/

theorem broadcast_surfaces (fails : Client → Bool) (st : ManagerState) (sid : Str)
    (msg : Message) : (broadcastToSurface fails st sid msg).1.surfaces = st.surfaces := by
  unfold broadcastToSurface
  dsimp only
  split <;> rfl

theorem broadcast_persisted (fails : Client → Bool) (st : ManagerState) (sid : Str)
    (msg : Message) : (broadcastToSurface fails st sid msg).1.persisted = st.persisted := by
  unfold broadcastToSurface
  dsimp only
  split <;> rfl

theorem broadcast_enabled (fails : Client → Bool) (st : ManagerState) (sid : Str)
    (msg : Message) :
    (broadcastToSurface fails st sid msg).1.persistenceEnabled = st.persistenceEnabled := by
  unfold broadcastToSurface
  dsimp only
  split <;> rfl

theorem persist_surfaces (st : ManagerState) (sid : Str) :
    (persistSurface st sid).1.surfaces = st.surfaces := by
  unfold persistSurface
  split
  · rfl
  · split <;> rfl

theorem persist_wsClients (st : ManagerState) (sid : Str) :
    (persistSurface st sid).1.wsClients = st.wsClients := by
  unfold persistSurface
  split
  · rfl
  · split <;> rfl

/-! Canonical path reconstruction: joining non-empty slash-free segments
with single slashes, the form the decoder inverts exactly. -/

/-- Join segments with single interior slashes (no leading slash). -/
def joinSlash : List Str → Str
  | [] => []
  | [p] => p
  | p :: rest => p ++ '/' :: joinSlash rest

theorem dropLeadingSlashes_replicate (i : Nat) (l : Str) :
    dropLeadingSlashes (List.replicate i '/' ++ l) = dropLeadingSlashes l := by
  induction i with
  | zero => rfl
  | succ n ih => simp [List.replicate_succ, dropLeadingSlashes, ih]

theorem dropLeadingSlashes_cons_ne (c : Char) (l : Str) (h : c ≠ '/') :
    dropLeadingSlashes (c :: l) = c :: l := by
  simp [dropLeadingSlashes, h]

theorem joinSlash_head (parts : List Str) (hne : parts ≠ [])
    (hseg : ∀ s ∈ parts, s ≠ [] ∧ '/' ∉ s) :
    ∃ c cs, joinSlash parts = c :: cs ∧ c ≠ '/' := by
  match parts, hne with
  | p :: rest, _ =>
      have hp := hseg p (List.mem_cons_self _ _)
      match p, hp.1 with
      | c :: cs', _ =>
          have hc : c ≠ '/' := fun hcc => hp.2 (hcc ▸ List.mem_cons_self _ _)
          match rest with
          | [] => exact ⟨c, cs', rfl, hc⟩
          | q :: rest' => exact ⟨c, cs' ++ '/' :: joinSlash (q :: rest'), rfl, hc⟩

theorem joinSlash_reverse_head (parts : List Str) (hne : parts ≠ [])
    (hseg : ∀ s ∈ parts, s ≠ [] ∧ '/' ∉ s) :
    ∃ c cs, (joinSlash parts).reverse = c :: cs ∧ c ≠ '/' := by
  induction parts with
  | nil => exact absurd rfl hne
  | cons p rest ih =>
      match rest with
      | [] =>
          have hp := hseg p (List.mem_cons_self _ _)
          have hrev : p.reverse ≠ [] := by
            simp [List.reverse_eq_nil_iff, hp.1]
          match hr : p.reverse, hrev with
          | c :: cs, _ =>
              refine ⟨c, cs, rfl, fun hcc => hp.2 ?_⟩
              have : c ∈ p.reverse := by rw [hr]; exact List.mem_cons_self _ _
              rw [List.mem_reverse] at this
              exact hcc ▸ this
      | q :: rest' =>
          have hseg' : ∀ s ∈ q :: rest', s ≠ [] ∧ '/' ∉ s :=
            fun s hs => hseg s (List.mem_cons_of_mem _ hs)
          obtain ⟨c, cs, hj, hc⟩ := ih (by simp) hseg'
          refine ⟨c, cs ++ '/' :: p.reverse, ?_, hc⟩
          show (p ++ '/' :: joinSlash (q :: rest')).reverse = _
          rw [List.reverse_append, List.reverse_cons, hj]
          simp

theorem splitSlash_no_slash (p : Str) (h : '/' ∉ p) : splitSlash p = [p] := by
  induction p with
  | nil => rfl
  | cons c cs ih =>
      have hc : ¬c = '/' := fun hcc => h (hcc ▸ List.mem_cons_self _ _)
      have hcs : '/' ∉ cs := fun hh => h (List.mem_cons_of_mem _ hh)
      simp only [splitSlash, hc, if_false, ih hcs]

theorem splitSlash_append_slash (p t : Str) (h : '/' ∉ p) :
    splitSlash (p ++ '/' :: t) = p :: splitSlash t := by
  induction p with
  | nil => simp [splitSlash]
  | cons c cs ih =>
      have hc : ¬c = '/' := fun hcc => h (hcc ▸ List.mem_cons_self _ _)
      have hcs : '/' ∉ cs := fun hh => h (List.mem_cons_of_mem _ hh)
      simp only [List.cons_append, splitSlash, hc, if_false]
      rw [show splitSlash (cs.append ('/' :: t)) = cs :: splitSlash t from ih hcs]

theorem splitSlash_joinSlash (parts : List Str) (hne : parts ≠ [])
    (hslash : ∀ s ∈ parts, '/' ∉ s) :
    splitSlash (joinSlash parts) = parts := by
  induction parts with
  | nil => exact absurd rfl hne
  | cons p rest ih =>
      match rest with
      | [] => exact splitSlash_no_slash p (hslash p (List.mem_cons_self _ _))
      | q :: rest' =>
          have h1 : '/' ∉ p := hslash p (List.mem_cons_self _ _)
          have h2 : ∀ s ∈ q :: rest', '/' ∉ s :=
            fun s hs => hslash s (List.mem_cons_of_mem _ hs)
          show splitSlash (p ++ '/' :: joinSlash (q :: rest')) = _
          rw [splitSlash_append_slash _ _ h1, ih (by simp) h2]

theorem stripSlashes_padded (parts : List Str) (i j : Nat) (hne : parts ≠ [])
    (hseg : ∀ s ∈ parts, s ≠ [] ∧ '/' ∉ s) :
    stripSlashes (List.replicate i '/' ++ joinSlash parts ++ List.replicate j '/') =
      joinSlash parts := by
  obtain ⟨c, cs, hj, hc⟩ := joinSlash_head parts hne hseg
  obtain ⟨d, ds, hr, hd⟩ := joinSlash_reverse_head parts hne hseg
  unfold stripSlashes
  rw [List.append_assoc, dropLeadingSlashes_replicate]
  rw [hj, List.cons_append, dropLeadingSlashes_cons_ne _ _ hc, ← List.cons_append, ← hj]
  rw [List.reverse_append, List.reverse_replicate, hr, dropLeadingSlashes_replicate,
    dropLeadingSlashes_cons_ne _ _ hd, ← hr, List.reverse_reverse]

/-! Pointer-walk lemmas. -/

theorem setSegsP_fresh_none (parts : List Str) (v : Json) (hne : parts ≠ []) :
    (setSegsP (Json.obj []) parts v).2 = none := by
  induction parts with
  | nil => exact absurd rfl hne
  | cons k rest ih =>
      match rest with
      | [] => rfl
      | k2 :: rest' =>
          show (setSegsP (Json.obj []) (k2 :: rest') v).2 = none
          exact ih (by simp)

theorem setSegsP_cons₂ (entries : List (Str × Json)) (k k2 : Str) (rest : List Str)
    (v : Json) :
    setSegsP (Json.obj entries) (k :: k2 :: rest) v =
      match assocGet entries k with
      | some child =>
          (Json.obj (assocSet entries k (setSegsP child (k2 :: rest) v).1),
            (setSegsP child (k2 :: rest) v).2)
      | none =>
          (Json.obj (assocSet entries k (setSegsP (Json.obj []) (k2 :: rest) v).1),
            (setSegsP (Json.obj []) (k2 :: rest) v).2) := rfl

theorem setSegsP_error_unchanged (parts : List Str) (j v : Json)
    (h : (setSegsP j parts v).2.isSome = true) : (setSegsP j parts v).1 = j := by
  induction parts generalizing j with
  | nil => cases j <;> rfl
  | cons k rest ih =>
      match rest with
      | [] =>
          cases j with
          | obj entries => simp [setSegsP] at h
          | null => rfl
          | bool b => rfl
          | num n => rfl
          | str s => rfl
          | arr elems => rfl
      | k2 :: rest' =>
          cases j with
          | obj entries =>
              rw [setSegsP_cons₂] at h ⊢
              revert h
              cases hk : assocGet entries k with
              | some child =>
                  intro h
                  have h1 : (setSegsP child (k2 :: rest') v).1 = child := ih child h
                  show Json.obj (assocSet entries k (setSegsP child (k2 :: rest') v).1) =
                    Json.obj entries
                  rw [h1, assocSet_eq_of_get entries k child hk]
              | none =>
                  intro h
                  have h2 : (setSegsP (Json.obj []) (k2 :: rest') v).2.isSome = true := h
                  rw [setSegsP_fresh_none (k2 :: rest') v (by simp)] at h2
                  simp at h2
          | null => rfl
          | bool b => rfl
          | num n => rfl
          | str s => rfl
          | arr elems => rfl

theorem set_roundtrip_segs (parts : List Str) (j v : Json) (hne : parts ≠ [])
    (h : (setSegsP j parts v).2 = none) :
    getSegs (setSegsP j parts v).1 parts = some v := by
  induction parts generalizing j with
  | nil => exact absurd rfl hne
  | cons k rest ih =>
      match rest with
      | [] =>
          cases j with
          | obj entries =>
              show getSegs (Json.obj (assocSet entries k v)) [k] = some v
              simp [getSegs, assocGet_assocSet_self]
          | null => exact Option.noConfusion h
          | bool b => exact Option.noConfusion h
          | num n => exact Option.noConfusion h
          | str s => exact Option.noConfusion h
          | arr elems => exact Option.noConfusion h
      | k2 :: rest' =>
          cases j with
          | obj entries =>
              rw [setSegsP_cons₂] at h ⊢
              revert h
              cases hk : assocGet entries k with
              | some child =>
                  intro h
                  show getSegs
                      (Json.obj (assocSet entries k (setSegsP child (k2 :: rest') v).1))
                      (k :: k2 :: rest') = some v
                  simp only [getSegs, assocGet_assocSet_self]
                  exact ih child (by simp) h
              | none =>
                  intro h
                  show getSegs
                      (Json.obj (assocSet entries k (setSegsP (Json.obj []) (k2 :: rest') v).1))
                      (k :: k2 :: rest') = some v
                  simp only [getSegs, assocGet_assocSet_self]
                  exact ih (Json.obj []) (by simp) h
          | null => exact Option.noConfusion h
          | bool b => exact Option.noConfusion h
          | num n => exact Option.noConfusion h
          | str s => exact Option.noConfusion h
          | arr elems => exact Option.noConfusion h

/-! Flatten lemmas. -/

theorem flattenJson_leaf (pre : Str) (v : Json) (hv : v.isObj = false) :
    flattenJson pre v = [(pre, v)] := by
  cases v with
  | obj entries => simp [Json.isObj] at hv
  | null => rfl
  | bool b => rfl
  | num n => rfl
  | str s => rfl
  | arr elems => rfl

theorem mem_flattenEntries_of_get (entries : List (Str × Json)) (k : Str) (c : Json)
    (pre : Str) (hk : assocGet entries k = some c) (x : Str × Json)
    (hx : x ∈ flattenJson (pre ++ '/' :: k) c) : x ∈ flattenEntries pre entries := by
  induction entries with
  | nil => exact Option.noConfusion hk
  | cons hd tl ih =>
      obtain ⟨k', v'⟩ := hd
      by_cases hkk : k' = k
      · subst hkk
        have hcv : v' = c := by simpa [assocGet] using hk
        subst hcv
        show x ∈ flattenJson (pre ++ '/' :: k') v' ++ flattenEntries pre tl
        exact List.mem_append_left _ hx
      · have hk' : assocGet tl k = some c := by simpa [assocGet, hkk] using hk
        show x ∈ flattenJson (pre ++ '/' :: k') v' ++ flattenEntries pre tl
        exact List.mem_append_right _ (ih hk')

theorem set_flatten_mem (parts : List Str) (pre : Str) (j v : Json) (hne : parts ≠ [])
    (h : (setSegsP j parts v).2 = none) (hv : v.isObj = false) :
    (List.foldl (fun acc k => acc ++ '/' :: k) pre parts, v) ∈
      flattenJson pre (setSegsP j parts v).1 := by
  induction parts generalizing pre j with
  | nil => exact absurd rfl hne
  | cons k rest ih =>
      match rest with
      | [] =>
          cases j with
          | obj entries =>
              show (pre ++ '/' :: k, v) ∈ flattenJson pre (Json.obj (assocSet entries k v))
              refine mem_flattenEntries_of_get _ k v pre (assocGet_assocSet_self _ _ _) _ ?_
              rw [flattenJson_leaf _ _ hv]
              exact List.mem_cons_self _ _
          | null => exact Option.noConfusion h
          | bool b => exact Option.noConfusion h
          | num n => exact Option.noConfusion h
          | str s => exact Option.noConfusion h
          | arr elems => exact Option.noConfusion h
      | k2 :: rest' =>
          cases j with
          | obj entries =>
              rw [setSegsP_cons₂] at h ⊢
              revert h
              cases hk : assocGet entries k with
              | some child =>
                  intro h
                  show (List.foldl (fun acc k => acc ++ '/' :: k) (pre ++ '/' :: k)
                        (k2 :: rest'), v) ∈
                      flattenJson pre
                        (Json.obj (assocSet entries k (setSegsP child (k2 :: rest') v).1))
                  exact mem_flattenEntries_of_get _ k _ pre (assocGet_assocSet_self _ _ _) _
                    (ih (pre ++ '/' :: k) child (by simp) h)
              | none =>
                  intro h
                  show (List.foldl (fun acc k => acc ++ '/' :: k) (pre ++ '/' :: k)
                        (k2 :: rest'), v) ∈
                      flattenJson pre
                        (Json.obj (assocSet entries k
                          (setSegsP (Json.obj []) (k2 :: rest') v).1))
                  exact mem_flattenEntries_of_get _ k _ pre (assocGet_assocSet_self _ _ _) _
                    (ih (pre ++ '/' :: k) (Json.obj []) (by simp) h)
          | null => exact Option.noConfusion h
          | bool b => exact Option.noConfusion h
          | num n => exact Option.noConfusion h
          | str s => exact Option.noConfusion h
          | arr elems => exact Option.noConfusion h

/-! Shared manager-operation characterizations. -/

theorem broadcast_spec (fails : Client → Bool) (st : ManagerState) (sid : Str)
    (msg : Message) (cl : List Client) (hcl : assocGet st.wsClients sid = some cl)
    (hnd : cl.Nodup) :
    broadcastToSurface fails st sid msg =
      ({ st with wsClients := assocSet st.wsClients sid (cl.filter fun c => !fails c) },
        (cl.filter fun c => !fails c).map fun c => Event.sent c msg) := by
  unfold broadcastToSurface
  rw [hcl]
  dsimp only [Option.getD]
  by_cases h0 : cl = []
  · subst h0
    rw [if_pos rfl, List.filter_nil, List.map_nil, assocSet_eq_of_get _ _ _ hcl]
  · rw [if_neg h0, sendAll_eq, discardClients_filter _ _ hnd]

theorem updateDataModel_root (fails : Client → Bool) (st : ManagerState) (sid : Str)
    (s : SurfaceStateM) (v : Json) (now : Nat) (p : Str)
    (hp : p = [] ∨ p = ['/']) (hs : assocGet st.surfaces sid = some s) :
    updateDataModel fails st sid p v now = (st, [], some CErr.invalidPath) := by
  unfold updateDataModel
  rw [hs]
  dsimp only
  have hset : setJsonPointer (Json.obj s.dataModel) p v =
      (Json.obj s.dataModel, some CErr.invalidPath) := by
    unfold setJsonPointer
    rw [if_pos hp]
  rw [hset]
  dsimp only
  rw [show ({ s with dataModel := s.dataModel } : SurfaceStateM) = s from rfl,
    assocSet_eq_of_get _ _ _ hs]

theorem broadcast_none (fails : Client → Bool) (st : ManagerState) (sid : Str)
    (msg : Message) (h : assocGet st.wsClients sid = none) :
    broadcastToSurface fails st sid msg = (st, []) := by
  unfold broadcastToSurface
  rw [h]
  rfl

theorem deletePersisted_events (st : ManagerState) (sid : Str) :
    (deletePersistedSurface st sid).2 =
      (if st.persistenceEnabled = true ∧ (assocGet st.persisted sid).isSome = true
        then [Event.deletedPersisted sid] else []) := by
  unfold deletePersistedSurface
  by_cases he : st.persistenceEnabled = true
  · rw [if_neg (by simp [he])]
    cases hg : assocGet st.persisted sid with
    | none => simp [he]
    | some r => simp [he]
  · rw [if_pos (by simpa using he)]
    simp [he]

theorem deletePersisted_surfaces (st : ManagerState) (sid : Str) :
    (deletePersistedSurface st sid).1.surfaces = st.surfaces := by
  unfold deletePersistedSurface
  split
  · rfl
  · split <;> rfl

/-- Modelled from the spec: remove one leading slash character if present
(the head half of the single-strip decoder the C7 claim describes). -/
def dropOneLeadingSlash : Str → Str
  | [] => []
  | c :: cs => if c = '/' then cs else c :: cs

/-- Modelled from the spec: path decoding as the spec describes it for C7,
stripping at most a single leading and a single trailing slash before
splitting: the claim-side decoder compared against the code's. -/
def stripOneSlash (s : Str) : Str :=
  (dropOneLeadingSlash (dropOneLeadingSlash s).reverse).reverse

/-- Concrete surface fixture used by the witnesses below. -/
def wSurface : SurfaceStateM :=
  ⟨"s".data, none, none, [], [(['a'], Json.num 1)], 0, 0⟩

/-- Concrete one-surface manager state with one subscriber and one
persisted record, used by the witnesses below. -/
def wState : ManagerState :=
  ⟨true, [("s".data, wSurface)], [("s".data, [0])], [("s".data, wSurface)]⟩

/-- Concrete one-surface manager state with three subscribers, used by the
broadcast witnesses below. -/
def wState3 : ManagerState :=
  ⟨true, [("s".data, wSurface)], [("s".data, [0, 1, 2])], []⟩

/-- C1: a path-scoped mutation whose path is root (`""` or `"/"`) always
fails with `InvalidPathError` regardless of tree contents, and the patch
operation on any existing surface fails the same way. -/
theorem c1_root_path_always_invalid (j v : Json) (p : Str)
    (hp : p = [] ∨ p = ['/'])
    (fails : Client → Bool) (st : ManagerState) (sid : Str) (s : SurfaceStateM)
    (now : Nat) (hs : assocGet st.surfaces sid = some s) :
    (setJsonPointer j p v).2 = some CErr.invalidPath ∧
    (updateDataModel fails st sid p v now).2.2 = some CErr.invalidPath := by
  constructor
  · unfold setJsonPointer
    rw [if_pos hp]
  · rw [updateDataModel_root fails st sid s v now p hp hs]

/-- Witness for C1: the root path `"/"` on a concrete tree and on a
concrete store holding one surface. -/
theorem c1_root_path_always_invalid_witness :
    (['/'] = ([] : Str) ∨ ['/'] = ['/']) ∧
    assocGet wState.surfaces "s".data = some wSurface ∧
    ((setJsonPointer Json.null ['/'] (Json.num 3)).2 = some CErr.invalidPath ∧
      (updateDataModel (fun _ => false) wState "s".data ['/'] (Json.num 3) 1).2.2 =
        some CErr.invalidPath) :=
  ⟨Or.inr rfl, rfl,
    c1_root_path_always_invalid Json.null (Json.num 3) ['/'] (Or.inr rfl)
      (fun _ => false) wState "s".data wSurface 1 rfl⟩

/-- C2: the full-state replay sent to a newly subscribed handle is exactly
one `createSurface`; then, iff the component list is non-empty, one
`updateComponents` with the full current sequence; then one
`updateDataModel` per leaf of `flatten(dataModel)`, in flatten order. -/
theorem c2_replay_shape (s : SurfaceStateM) : sendInitialState s = replaySpec s := by
  unfold sendInitialState replaySpec
  cases hdm : s.dataModel with
  | nil => simp [flattenDataModel, flattenEntries]
  | cons e rest => simp

/-- C4 counterexample: with a number stored at the intermediate segment
`a`, `set(tree, "/a/b", 0)` raises an unhandled `TypeError` (the walk
descends into a non-mapping), so the operation does crash rather than
overwrite or cleanly reject. -/
theorem c4_set_nonmapping_counterexample :
    setJsonPointer (Json.obj [(['a'], Json.num 5)]) "/a/b".data (Json.num 0) =
      (Json.obj [(['a'], Json.num 5)], some CErr.typeError) := rfl

/-- C4 (amended): when the pointer walk reaches an existing non-mapping
value at an intermediate segment it raises `TypeError` and leaves the
tree unchanged — more generally, any erroring walk leaves the tree
exactly as it was. -/
theorem c4_set_nonmapping_behavior :
    (∀ parts (j v : Json), (setSegsP j parts v).2.isSome = true →
        (setSegsP j parts v).1 = j)
    ∧ (∀ entries (k : Str) (c : Json) rest (v : Json), assocGet entries k = some c →
        c.isObj = false → rest ≠ [] →
        setSegsP (Json.obj entries) (k :: rest) v =
          (Json.obj entries, some CErr.typeError)) := by
  constructor
  · exact fun parts j v h => setSegsP_error_unchanged parts j v h
  · intro entries k c rest v hk hobj hrest
    match rest, hrest with
    | k2 :: rest', _ =>
        rw [setSegsP_cons₂, hk]
        show (Json.obj (assocSet entries k (setSegsP c (k2 :: rest') v).1),
            (setSegsP c (k2 :: rest') v).2) = (Json.obj entries, some CErr.typeError)
        have hc : setSegsP c (k2 :: rest') v = (c, some CErr.typeError) := by
          cases c with
          | obj entries' => simp [Json.isObj] at hobj
          | null => rfl
          | bool b => rfl
          | num n => rfl
          | str s => rfl
          | arr elems => rfl
        rw [hc]
        dsimp only
        rw [assocSet_eq_of_get _ _ _ hk]

/-- Witness for C4: the erroring walk on `{a: 5}` with segments `a, b`
leaves the tree unchanged and reports the `TypeError`. -/
theorem c4_set_nonmapping_behavior_witness :
    ((setSegsP (Json.num 5) [['b']] (Json.num 0)).2.isSome = true ∧
      (setSegsP (Json.num 5) [['b']] (Json.num 0)).1 = Json.num 5) ∧
    (assocGet [(['a'], Json.num 5)] ['a'] = some (Json.num 5) ∧
      (Json.num 5).isObj = false ∧ ([['b']] : List Str) ≠ [] ∧
      setSegsP (Json.obj [(['a'], Json.num 5)]) [['a'], ['b']] (Json.num 0) =
        (Json.obj [(['a'], Json.num 5)], some CErr.typeError)) :=
  ⟨⟨rfl, c4_set_nonmapping_behavior.1 [['b']] (Json.num 5) (Json.num 0) rfl⟩,
    rfl, rfl, by simp,
    c4_set_nonmapping_behavior.2 [(['a'], Json.num 5)] ['a'] (Json.num 5) [['b']]
      (Json.num 0) rfl rfl (by simp)⟩

/-- C5: whenever `set` succeeds, looking up the same path in the
resulting tree returns exactly the value that was set. -/
theorem c5_set_get_roundtrip (j : Json) (path : Str) (v : Json)
    (h : (setJsonPointer j path v).2 = none) :
    getJsonPointer (setJsonPointer j path v).1 path = some v := by
  unfold setJsonPointer at h ⊢
  by_cases hr : path = [] ∨ path = ['/']
  · rw [if_pos hr] at h
    exact Option.noConfusion h
  · rw [if_neg hr] at h ⊢
    unfold getJsonPointer
    exact set_roundtrip_segs (decodeSegs path) j v (splitSlash_ne_nil _) h

/-- Witness for C5: setting `/a/b` to `7` in the empty tree and reading
it back. -/
theorem c5_set_get_roundtrip_witness :
    (setJsonPointer (Json.obj []) "/a/b".data (Json.num 7)).2 = none ∧
    getJsonPointer (setJsonPointer (Json.obj []) "/a/b".data (Json.num 7)).1
      "/a/b".data = some (Json.num 7) :=
  ⟨rfl, c5_set_get_roundtrip (Json.obj []) "/a/b".data (Json.num 7) rfl⟩

/-- C6 counterexample: setting the mapping value `{}` at the valid path
`/a` succeeds, yet `flatten` of the result does not contain
`("/a", {})` — flatten recurses into mapping values instead of yielding
them. -/
theorem c6_flatten_counterexample :
    (setJsonPointer (Json.obj []) "/a".data (Json.obj [])).2 = none ∧
    ¬ (("/a".data, Json.obj []) ∈
        flattenJson [] (setJsonPointer (Json.obj []) "/a".data (Json.obj [])).1) := by
  refine ⟨rfl, fun h => ?_⟩
  rw [show flattenJson [] (setJsonPointer (Json.obj []) "/a".data (Json.obj [])).1 =
      ([] : List (Str × Json)) from rfl] at h
  exact List.not_mem_nil _ h

/-- C6 (amended): whenever `set` succeeds and the value is not a mapping,
`flatten` of the result contains the pair of the canonically re-encoded
decoded path (`"/" + "/"-join of its segments`) and the value; when the
given path is already in that canonical form this is `(path, value)`
itself. -/
theorem c6_flatten_after_set (j : Json) (path : Str) (v : Json)
    (hok : (setJsonPointer j path v).2 = none) (hv : v.isObj = false) :
    (encodeSegs (decodeSegs path), v) ∈
      flattenJson [] (setJsonPointer j path v).1 := by
  unfold setJsonPointer at hok ⊢
  by_cases hr : path = [] ∨ path = ['/']
  · rw [if_pos hr] at hok
    exact Option.noConfusion hok
  · rw [if_neg hr] at hok ⊢
    exact set_flatten_mem (decodeSegs path) [] j v (splitSlash_ne_nil _) hok hv

/-- Witness for C6: after setting `/a/b` to `7` in the empty tree, flatten
contains the re-encoded path (here `/a/b` itself) with the value. -/
theorem c6_flatten_after_set_witness :
    (setJsonPointer (Json.obj []) "/a/b".data (Json.num 7)).2 = none ∧
    (Json.num 7).isObj = false ∧
    (encodeSegs (decodeSegs "/a/b".data), Json.num 7) ∈
      flattenJson [] (setJsonPointer (Json.obj []) "/a/b".data (Json.num 7)).1 :=
  ⟨rfl, rfl, c6_flatten_after_set (Json.obj []) "/a/b".data (Json.num 7) rfl rfl⟩

/-- C7 counterexample: the decoder strips ALL leading slashes (on `//a` it
disagrees with the single-strip split the claim describes), and decoded
segments are not all non-empty (`/a//b` yields an empty middle segment). -/
theorem c7_decode_counterexample :
    decodeSegs "//a".data ≠ splitSlash (stripOneSlash "//a".data) ∧
    ([] : Str) ∈ decodeSegs "/a//b".data := by
  constructor
  · decide
  · decide

/-- C7 (amended): decoding splits on `/` after stripping ALL leading and
trailing slashes — any number of them collapse, and non-empty slash-free
segments are recovered exactly; segments can be empty only when the
interior has consecutive slashes. -/
theorem c7_decode_strips_all (parts : List Str) (i j : Nat) (hne : parts ≠ [])
    (hseg : ∀ s ∈ parts, s ≠ [] ∧ '/' ∉ s) :
    decodeSegs (List.replicate i '/' ++ joinSlash parts ++ List.replicate j '/') =
      parts := by
  unfold decodeSegs
  rw [stripSlashes_padded parts i j hne hseg]
  exact splitSlash_joinSlash parts hne (fun s hs => (hseg s hs).2)

/-- Witness for C7: `//a/b/` decodes to the two segments `a`, `b`. -/
theorem c7_decode_strips_all_witness :
    ([['a'], ['b']] : List Str) ≠ [] ∧
    (∀ s ∈ ([['a'], ['b']] : List Str), s ≠ [] ∧ '/' ∉ s) ∧
    decodeSegs (List.replicate 2 '/' ++ joinSlash [['a'], ['b']] ++
      List.replicate 1 '/') = [['a'], ['b']] :=
  ⟨by decide, by decide, c7_decode_strips_all [['a'], ['b']] 2 1 (by decide) (by decide)⟩

/-- C8: update-components fails with `SurfaceNotFoundError` exactly when
the id is absent; when present it replaces the component sequence
wholesale with the new list and sets `updatedAt` to the current tick. -/
theorem c8_update_components_contract (fails : Client → Bool) (st : ManagerState)
    (sid : Str) (comps : List Json) (now : Nat) :
    (assocGet st.surfaces sid = none →
        updateComponents fails st sid comps now = (st, [], some CErr.surfaceNotFound))
    ∧ (∀ s, assocGet st.surfaces sid = some s →
        (updateComponents fails st sid comps now).2.2 = none ∧
        assocGet (updateComponents fails st sid comps now).1.surfaces sid =
          some { s with components := comps, updatedAt := now }) := by
  constructor
  · intro h
    unfold updateComponents
    rw [h]
  · intro s hs
    unfold updateComponents
    rw [hs]
    dsimp only
    refine ⟨rfl, ?_⟩
    rw [broadcast_surfaces, persist_surfaces]
    exact assocGet_assocSet_self _ _ _

/-- Witness for C8: both branches on the concrete store — an absent id
fails, and updating the present surface replaces its components and
timestamp. -/
theorem c8_update_components_contract_witness :
    (assocGet wState.surfaces "t".data = none ∧
      updateComponents (fun _ => false) wState "t".data [Json.null] 4 =
        (wState, [], some CErr.surfaceNotFound)) ∧
    (assocGet wState.surfaces "s".data = some wSurface ∧
      (updateComponents (fun _ => false) wState "s".data [Json.null] 4).2.2 = none ∧
      assocGet (updateComponents (fun _ => false) wState "s".data
          [Json.null] 4).1.surfaces "s".data =
        some { wSurface with components := [Json.null], updatedAt := 4 }) :=
  ⟨⟨rfl, (c8_update_components_contract (fun _ => false) wState "t".data [Json.null] 4).1
      rfl⟩,
    rfl, (c8_update_components_contract (fun _ => false) wState "s".data [Json.null] 4).2
      wSurface rfl⟩

/-- C9: a broadcast delivers the message to every subscriber whose send
succeeds even when other sends fail, removes exactly the failing
subscribers from the registry, and returns normally (its type has no
error outcome, matching the swallowed per-client exceptions). -/
theorem c9_broadcast_isolation (fails : Client → Bool) (st : ManagerState) (sid : Str)
    (msg : Message) (cl : List Client)
    (hcl : assocGet st.wsClients sid = some cl) (hnd : cl.Nodup) :
    (broadcastToSurface fails st sid msg).2 =
      (cl.filter fun c => !fails c).map (fun c => Event.sent c msg) ∧
    assocGet (broadcastToSurface fails st sid msg).1.wsClients sid =
      some (cl.filter fun c => !fails c) := by
  rw [broadcast_spec fails st sid msg cl hcl hnd]
  exact ⟨rfl, assocGet_assocSet_self _ _ _⟩

/-- Witness for C9: of three subscribers, client `1` fails; clients `0`
and `2` still receive the message and only `1` is pruned. -/
theorem c9_broadcast_isolation_witness :
    assocGet wState3.wsClients "s".data = some [0, 1, 2] ∧
    ([0, 1, 2] : List Client).Nodup ∧
    ((broadcastToSurface (fun c => c == 1) wState3 "s".data
        (Message.updateDataModel ['m'] Json.null)).2 =
      (([0, 1, 2] : List Client).filter fun c => !(c == 1)).map
        (fun c => Event.sent c (Message.updateDataModel ['m'] Json.null)) ∧
    assocGet (broadcastToSurface (fun c => c == 1) wState3 "s".data
        (Message.updateDataModel ['m'] Json.null)).1.wsClients "s".data =
      some (([0, 1, 2] : List Client).filter fun c => !(c == 1))) :=
  ⟨rfl, by decide,
    c9_broadcast_isolation (fun c => c == 1) wState3 "s".data
      (Message.updateDataModel ['m'] Json.null) [0, 1, 2] rfl (by decide)⟩

/-- C10: patching an existing surface at the root path raises
`InvalidPathError` before any effect — the returned state is exactly the
input state (data model and `updatedAt` untouched, nothing persisted) and
no message is emitted. -/
theorem c10_patch_root_atomic (fails : Client → Bool) (st : ManagerState) (sid : Str)
    (s : SurfaceStateM) (v : Json) (now : Nat) (p : Str)
    (hp : p = [] ∨ p = ['/']) (hs : assocGet st.surfaces sid = some s) :
    updateDataModel fails st sid p v now = (st, [], some CErr.invalidPath) :=
  updateDataModel_root fails st sid s v now p hp hs

/-- Witness for C10: patching the concrete store at the empty path leaves
it untouched and emits nothing. -/
theorem c10_patch_root_atomic_witness :
    (([] : Str) = ([] : Str) ∨ ([] : Str) = ['/']) ∧
    assocGet wState.surfaces "s".data = some wSurface ∧
    updateDataModel (fun _ => false) wState "s".data [] (Json.num 9) 7 =
      (wState, [], some CErr.invalidPath) :=
  ⟨Or.inl rfl, rfl,
    c10_patch_root_atomic (fun _ => false) wState "s".data wSurface (Json.num 9) 7 []
      (Or.inl rfl) rfl⟩

/-- C3 counterexample: on the concrete store with one surface, one
subscriber and one persisted record, `close` removes the surface from the
in-memory store before deleting the persisted record — the claimed order
(persisted record first, then the store) does not match the emitted
effect trace. -/
theorem c3_close_order_counterexample :
    (closeSurface (fun _ => false) wState "s".data).2.1 ≠
      [Event.sent 0 (Message.deleteSurface "s".data),
        Event.closedChannel 0,
        Event.deletedPersisted "s".data,
        Event.removedFromStore "s".data] := by
  intro h
  rw [show (closeSurface (fun _ => false) wState "s".data).2.1 =
      [Event.sent 0 (Message.deleteSurface "s".data),
        Event.closedChannel 0,
        Event.removedFromStore "s".data,
        Event.deletedPersisted "s".data] from rfl] at h
  simp at h

/-- C3 (amended): closing an existing surface broadcasts the delete
notice to every surviving subscriber, then force-closes exactly those
channels, then removes the surface from the in-memory store, and then
deletes the persisted record — store removal and persisted-record
deletion in that order, the reverse of the claim's last two steps.  Every
subscriber that receives the notice does so before its channel is closed
(all sends precede all closes in the trace), and a subsequent get on the
id fails. -/
theorem c3_close_effect_order (fails : Client → Bool) (st : ManagerState) (sid : Str)
    (s : SurfaceStateM) (hs : assocGet st.surfaces sid = some s)
    (hcl : ((assocGet st.wsClients sid).getD []).Nodup)
    (hkeys : (st.surfaces.map Prod.fst).Nodup) :
    (closeSurface fails st sid).2.1 =
      ((((assocGet st.wsClients sid).getD []).filter fun c => !fails c).map
          fun c => Event.sent c (Message.deleteSurface sid))
        ++ ((((assocGet st.wsClients sid).getD []).filter fun c => !fails c).map
          Event.closedChannel)
        ++ [Event.removedFromStore sid]
        ++ (if st.persistenceEnabled = true ∧ (assocGet st.persisted sid).isSome = true
            then [Event.deletedPersisted sid] else [])
    ∧ getSurface (closeSurface fails st sid).1 sid = none := by
  unfold closeSurface
  rw [hs]
  dsimp only
  cases hw : assocGet st.wsClients sid with
  | none =>
      rw [broadcast_none fails st sid _ hw]
      dsimp only
      rw [hw]
      dsimp only [Option.getD]
      constructor
      · simp [deletePersisted_events]
      · unfold getSurface
        rw [deletePersisted_surfaces]
        dsimp only
        exact assocGet_assocRemove_self _ _ hkeys
  | some cl =>
      rw [hw] at hcl
      have hnd : cl.Nodup := hcl
      rw [broadcast_spec fails st sid _ cl hw hnd]
      dsimp only
      rw [assocGet_assocSet_self]
      dsimp only [Option.getD]
      constructor
      · simp [deletePersisted_events]
      · unfold getSurface
        rw [deletePersisted_surfaces]
        dsimp only
        exact assocGet_assocRemove_self _ _ hkeys

/-- Witness for C3: the concrete one-subscriber store; the trace is the
broadcast, the channel close, the store removal, then the persisted
deletion, and the surface is gone afterwards. -/
theorem c3_close_effect_order_witness :
    assocGet wState.surfaces "s".data = some wSurface ∧
    ((assocGet wState.wsClients "s".data).getD []).Nodup ∧
    (wState.surfaces.map Prod.fst).Nodup ∧
    ((closeSurface (fun _ => false) wState "s".data).2.1 =
      ((((assocGet wState.wsClients "s".data).getD []).filter fun c => !(fun _ => false) c).map
          fun c => Event.sent c (Message.deleteSurface "s".data))
        ++ ((((assocGet wState.wsClients "s".data).getD []).filter
            fun c => !(fun _ => false) c).map Event.closedChannel)
        ++ [Event.removedFromStore "s".data]
        ++ (if wState.persistenceEnabled = true ∧
              (assocGet wState.persisted "s".data).isSome = true
            then [Event.deletedPersisted "s".data] else [])
      ∧ getSurface (closeSurface (fun _ => false) wState "s".data).1 "s".data = none) :=
  ⟨rfl, by decide, by decide,
    c3_close_effect_order (fun _ => false) wState "s".data wSurface rfl (by decide)
      (by decide)⟩

end CanvasMcp
